import Mathlib

/-!
Shallow embedding of the cache + cleanup + pagination subsystem of the
imdb-mcp-server repository (src/src/cache.py, src/src/api.py, with
near-identical duplicates in src/imdb_server.py), together with proofs of
the specified properties.

Modelling conventions:
* A Python `OrderedDict` is a list of key/value pairs, oldest (least
  recently used) first, most recently used at the tail, with unique keys.
* `datetime.now()` is an explicit `now : Int` argument (seconds);
  `timedelta(seconds=s)` subtraction compares `now - timestamp` with `s`.
* JSON payloads are the inductive `Json` below; Python truthiness of a
  payload is `Json.truthy` (numbers are modelled as integers, which is
  enough to express zero/non-zero truthiness).
* The upstream HTTP collaborator (`requests.get` + `raise_for_status` +
  `response.json()`) is a function `String → String → Except Unit Json`:
  `.error` covers transport errors, timeouts, non-2xx statuses and JSON
  parse failures, `.ok` a successfully parsed payload.
-/

set_option autoImplicit false
set_option linter.unusedSectionVars false

namespace ImdbMcp

/-- JSON-like payload values returned by the upstream API. -/
inductive Json where
  | null : Json
  | bool (b : Bool) : Json
  | num (n : Int) : Json
  | str (s : String) : Json
  | arr (elems : List Json) : Json
  | obj (fields : List (String × Json)) : Json

/-- Python truthiness of a JSON payload, as used by `if cached_data:` and
`if not api_key:` in `make_imdb_request`: `None`, `False`, `0`, `""`, `[]`
and `{}` are falsy, everything else truthy. -/
def Json.truthy : Json → Bool
  | .null => false
  | .bool b => b
  | .num n => n != 0
  | .str s => s != ""
  | .arr elems => !elems.isEmpty
  | .obj fields => !fields.isEmpty

section OrderedDict

variable {K V : Type} [DecidableEq K]

/-- Lookup in an ordered dict (`d[k]` / `k in d`): the value at the first
entry with the given key, if any. -/
def odLookup : List (K × V) → K → Option V
  | [], _ => none
  | e :: es, k => if e.1 = k then some e.2 else odLookup es k

/-- Remove the entry with the given key (`del d[k]`), first occurrence. -/
def odErase : List (K × V) → K → List (K × V)
  | [], _ => []
  | e :: es, k => if e.1 = k then es else e :: odErase es k

/-- Dict assignment `d[k] = v`: update the value in place if the key is
present, otherwise append a new entry at the (most recently used) tail. -/
def odAssign : List (K × V) → K → V → List (K × V)
  | [], k, v => [(k, v)]
  | e :: es, k, v => if e.1 = k then (k, v) :: es else e :: odAssign es k v

/-- The keys of an ordered dict, in order. -/
def odKeys {K V : Type} (l : List (K × V)) : List K := l.map Prod.fst

/-- `OrderedDict.move_to_end(k)`: move the entry with key `k` to the tail,
keeping its value. (Python raises `KeyError` when the key is absent; the
source only ever calls this with a present key, and the model leaves the
dict unchanged in that unreachable case.) -/
def moveToEnd (l : List (K × V)) (k : K) : List (K × V) :=
  match odLookup l k with
  | some v => odErase l k ++ [(k, v)]
  | none => l

/-- A dict's keys are pairwise distinct: an invariant of every Python dict,
and of every reachable cache state. -/
def NodupKeys {K V : Type} (l : List (K × V)) : Prop := (odKeys l).Nodup

instance {K V : Type} [DecidableEq K] (l : List (K × V)) :
    Decidable (NodupKeys l) :=
  List.nodupDecidable (odKeys l)

end OrderedDict

/-- `ResponseCache` of src/src/cache.py (duplicated in src/imdb_server.py):
an ordered dict from cache key to `(timestamp, data)`, oldest first, with a
maximum size and a TTL. -/
structure ResponseCache (K V : Type) where
  cache : List (K × (Int × V))
  max_size : Nat
  expiry_seconds : Int

namespace ResponseCache

/-- `ResponseCache.__init__`: empty dict, `max_size=100`,
`expiry_seconds=600` by default. -/
def init (K V : Type) (max_size : Nat := 100) (expiry_seconds : Int := 600) :
    ResponseCache K V :=
  ⟨[], max_size, expiry_seconds⟩

variable {K V : Type} [DecidableEq K]

/-- `ResponseCache.get`: if the key is present, move its entry to the
most-recently-used tail and return the stored data; otherwise return
`None` and leave the cache untouched. Returns (result, new cache). -/
def get (c : ResponseCache K V) (key : K) : Option V × ResponseCache K V :=
  match odLookup c.cache key with
  | some td => (some td.2, { c with cache := moveToEnd c.cache key })
  | none => (none, c)

/-- `ResponseCache.set`: if `len(cache) >= max_size`, pop the oldest entry
(`popitem(last=False)`, the head; Python would raise `KeyError` on an empty
dict, which is unreachable while `max_size ≥ 1`); then assign
`cache[key] = (now, data)` and move the entry to the tail. -/
def set (c : ResponseCache K V) (key : K) (now : Int) (data : V) :
    ResponseCache K V :=
  let trimmed := if c.max_size ≤ c.cache.length then c.cache.tail else c.cache
  { c with cache := moveToEnd (odAssign trimmed key (now, data)) key }

/-- `ResponseCache.clear_expired`: delete every entry whose age
`now - timestamp` is at least `expiry_seconds`, keeping the rest in order. -/
def clear_expired (c : ResponseCache K V) (now : Int) : ResponseCache K V :=
  { c with cache := c.cache.filter (fun e => decide (now - e.2.1 < c.expiry_seconds)) }

end ResponseCache

/-- The dict that `set` (src/src/cache.py lines 28-30) goes on to assign
into: the cache with the oldest entry popped when at/over capacity. -/
def trimmedCache {K V : Type} (c : ResponseCache K V) : List (K × (Int × V)) :=
  if c.max_size ≤ c.cache.length then c.cache.tail else c.cache

/-- One cache-store operation, for reasoning about arbitrary operation
sequences. -/
inductive CacheOp (K V : Type) where
  | get (key : K) : CacheOp K V
  | set (key : K) (now : Int) (data : V) : CacheOp K V
  | clearExpired (now : Int) : CacheOp K V

/-- Apply one operation to the store (discarding `get`'s returned value). -/
def applyOp {K V : Type} [DecidableEq K] (c : ResponseCache K V) :
    CacheOp K V → ResponseCache K V
  | .get key => (c.get key).2
  | .set key now data => c.set key now data
  | .clearExpired now => c.clear_expired now

/-- Apply a sequence of operations, left to right. -/
def applyOps {K V : Type} [DecidableEq K] (c : ResponseCache K V)
    (ops : List (CacheOp K V)) : ResponseCache K V :=
  ops.foldl applyOp c

/-- A sequence of `set` calls, one per (key, timestamp, data) triple. -/
def setOps {K V : Type} (kvs : List (K × Int × V)) : List (CacheOp K V) :=
  kvs.map fun x => CacheOp.set x.1 x.2.1 x.2.2

/-- The cache-manager state shared by all dispatcher calls: the cache plus
the lazy-cleanup bookkeeping (`last_cache_cleanup`, `cleanup_interval`,
default 5 minutes = 300 seconds). -/
structure CacheManagerState (K V : Type) where
  cache : ResponseCache K V
  last_cache_cleanup : Int
  cleanup_interval : Int

/-- `CacheManager.cleanup_if_needed` (the inlined prologue of
`make_imdb_request` in src/imdb_server.py): when
`now - last_cache_cleanup > cleanup_interval`, clear expired entries and
reset the cleanup clock. -/
def cleanup_if_needed {K V : Type} [DecidableEq K] (st : CacheManagerState K V)
    (now : Int) : CacheManagerState K V :=
  if st.cleanup_interval < now - st.last_cache_cleanup then
    { st with cache := st.cache.clear_expired now, last_cache_cleanup := now }
  else st

/-- Failures of a dispatcher call: src/src/api.py raises `ValueError` with
an "API key not found" message (the spec's `MissingCredential`) or an
"Unable to fetch data" message (the spec's `UpstreamUnavailable`). -/
inductive DispatchError where
  | missingCredential : DispatchError
  | upstreamUnavailable : DispatchError
deriving DecidableEq, Repr

/-- The dispatcher's collaborators: the resolved credential
(`config_manager.get_api_key()`) and the upstream HTTP endpoint as a
function of (url, serialized querystring). -/
structure UpstreamEnv where
  api_key : Option String
  upstream : String → String → Except Unit Json

/-- Python's `if not api_key:` on an `Optional[str]`: missing when `None`
or the empty string. -/
def api_key_missing : Option String → Bool
  | none => true
  | some s => s == ""

/-- `cache_key = f"{url}_{str(querystring)}"`, with the querystring
represented by its serialization `str(querystring)`. -/
def cache_key (url qs : String) : String := url ++ "_" ++ qs

/-- The observable outcome of one dispatcher call: the returned value or
error, the cache-manager state afterwards, and how many upstream HTTP
requests and cache `set` calls the invocation performed. -/
structure DispatchResult where
  result : Except DispatchError Json
  state : CacheManagerState String Json
  upstream_calls : Nat
  cache_sets : Nat

/-- The cache-miss tail of `make_imdb_request` (src/src/api.py lines
28-49): resolve the credential, fail fast when it is missing, otherwise
perform the upstream GET; on success store the parsed payload under the
key and return it, on any failure raise without caching. -/
def fetch_and_store (env : UpstreamEnv) (st : CacheManagerState String Json)
    (now : Int) (url qs : String) : DispatchResult :=
  if api_key_missing env.api_key then
    ⟨.error .missingCredential, st, 0, 0⟩
  else
    match env.upstream url qs with
    | .error _ => ⟨.error .upstreamUnavailable, st, 1, 0⟩
    | .ok data =>
        ⟨.ok data,
         { st with cache := st.cache.set (cache_key url qs) now data }, 1, 1⟩

/-- `make_imdb_request` of src/src/api.py: lazy cleanup, compute the cache
key, probe the cache (the probe itself promotes a present entry), return a
truthy cached payload immediately (`if cached_data:`), otherwise fall
through to the credential check and the upstream fetch. -/
def make_imdb_request (env : UpstreamEnv) (st : CacheManagerState String Json)
    (now : Int) (url qs : String) : DispatchResult :=
  let st1 := cleanup_if_needed st now
  let looked := st1.cache.get (cache_key url qs)
  let st2 : CacheManagerState String Json := { st1 with cache := looked.2 }
  match looked.1 with
  | some d =>
      if d.truthy then ⟨.ok d, st2, 0, 0⟩
      else fetch_and_store env st2 now url qs
  | none => fetch_and_store env st2 now url qs

/-- The paginated-response record built by `paginated_response`. -/
structure PageResult (α : Type) where
  items : List α
  start : Int
  count : Int
  totalCount : Nat
  hasMore : Bool
  nextStart : Option Int
deriving DecidableEq, Repr

/-- `paginated_response` of src/src/api.py (duplicated in
src/imdb_server.py): clamp `start` into `[0, max(total_count-1, 0)]`, fixed
page size 5, `end = min(start+5, total_count)`, Python slice
`items[start:end]`. -/
def paginated_response {α : Type} (items : List α) (start : Int)
    (total_count : Option Nat := none) : PageResult α :=
  let tc : Nat := total_count.getD items.length
  let start1 : Int := max 0 (min (if 0 < tc then (tc : Int) - 1 else 0) start)
  let page_size : Int := 5
  let stop : Int := min (start1 + page_size) (tc : Int)
  { items := (items.take stop.toNat).drop start1.toNat
    start := start1
    count := stop - start1
    totalCount := tc
    hasMore := decide (stop < (tc : Int))
    nextStart := if stop < (tc : Int) then some stop else none }

/-! ### Concrete instances, used in witnesses and counterexamples -/

/-- An environment whose upstream endpoint always returns the truthy
payload `"x"`. -/
def envTruthy : UpstreamEnv := ⟨some "key", fun _ _ => .ok (.str "x")⟩

/-- An environment whose upstream endpoint always returns the falsy empty
object `{}`. -/
def envFalsy : UpstreamEnv := ⟨some "key", fun _ _ => .ok (.obj [])⟩

/-- An environment with no resolvable credential (no per-request value,
no environment variable). -/
def envNoKey : UpstreamEnv := ⟨none, fun _ _ => .ok (.str "x")⟩

/-- A fresh cache-manager state: empty cache with the default
`max_size=100`, `expiry_seconds=600`, cleanup clock at 0, cleanup interval
of 300 seconds. -/
def freshState : CacheManagerState String Json :=
  ⟨ResponseCache.init String Json, 0, 300⟩

/-- A state whose cache already holds the truthy payload `"x"` under the
key of url `"u"` and querystring `"q"`. -/
def hitState : CacheManagerState String Json :=
  ⟨⟨[(cache_key "u" "q", (0, Json.str "x"))], 100, 600⟩, 0, 300⟩

/-! ### Ordered-dict lemmas -/

section OrderedDictLemmas

variable {K V : Type} [DecidableEq K]

theorem odKeys_nil {K V : Type} : odKeys ([] : List (K × V)) = [] := rfl

theorem odKeys_cons {K V : Type} (e : K × V) (es : List (K × V)) :
    odKeys (e :: es) = e.1 :: odKeys es := rfl

theorem odKeys_append {K V : Type} (l l' : List (K × V)) :
    odKeys (l ++ l') = odKeys l ++ odKeys l' := List.map_append _ _ _

theorem odLookup_isSome_iff (l : List (K × V)) (k : K) :
    (odLookup l k).isSome ↔ k ∈ odKeys l := by
  induction l with
  | nil => simp [odLookup, odKeys]
  | cons e es ih =>
      by_cases h : e.1 = k
      · simp [odLookup, odKeys, h]
      · simp [odLookup, odKeys, h, ih, Ne.symm h]

theorem odLookup_eq_none_of_not_mem {l : List (K × V)} {k : K}
    (h : k ∉ odKeys l) : odLookup l k = none := by
  cases ho : odLookup l k with
  | none => rfl
  | some v =>
      exact absurd ((odLookup_isSome_iff l k).mp (by simp [ho])) h

theorem mem_odKeys_of_lookup_some {l : List (K × V)} {k : K} {v : V}
    (h : odLookup l k = some v) : k ∈ odKeys l :=
  (odLookup_isSome_iff l k).mp (by simp [h])

theorem odLookup_some_mem {l : List (K × V)} {k : K} {v : V}
    (h : odLookup l k = some v) : (k, v) ∈ l := by
  induction l with
  | nil => simp [odLookup] at h
  | cons e es ih =>
      by_cases he : e.1 = k
      · rw [odLookup, if_pos he] at h
        injection h with h2
        have he2 : e = (k, v) := Prod.ext he h2
        exact he2 ▸ List.mem_cons_self _ _
      · rw [odLookup, if_neg he] at h
        exact .tail _ (ih h)

theorem odAssign_of_not_mem {l : List (K × V)} {k : K} (v : V)
    (h : k ∉ odKeys l) : odAssign l k v = l ++ [(k, v)] := by
  induction l with
  | nil => rfl
  | cons e es ih =>
      simp only [odKeys_cons, List.mem_cons, not_or] at h
      simp [odAssign, Ne.symm h.1, ih h.2]

theorem odLookup_odAssign_self (l : List (K × V)) (k : K) (v : V) :
    odLookup (odAssign l k v) k = some v := by
  induction l with
  | nil => simp [odAssign, odLookup]
  | cons e es ih =>
      by_cases he : e.1 = k
      · simp [odAssign, odLookup, he]
      · simp [odAssign, odLookup, he, ih]

theorem odKeys_odAssign_of_mem {l : List (K × V)} {k : K} (v : V)
    (h : k ∈ odKeys l) : odKeys (odAssign l k v) = odKeys l := by
  induction l with
  | nil => simp [odKeys] at h
  | cons e es ih =>
      by_cases he : e.1 = k
      · simp [odAssign, he, odKeys_cons]
      · simp only [odKeys_cons, List.mem_cons] at h
        rcases h with h | h
        · exact absurd h.symm he
        · simp [odAssign, he, odKeys_cons, ih h]

theorem length_odAssign_le (l : List (K × V)) (k : K) (v : V) :
    (odAssign l k v).length ≤ l.length + 1 := by
  induction l with
  | nil => simp [odAssign]
  | cons e es ih =>
      by_cases he : e.1 = k
      · simp [odAssign, he]
      · simp only [odAssign, he, if_false, List.length_cons]
        omega

theorem odErase_sublist (l : List (K × V)) (k : K) : (odErase l k).Sublist l := by
  induction l with
  | nil => simp [odErase]
  | cons e es ih =>
      by_cases he : e.1 = k
      · simp only [odErase, he, if_true]
        exact List.sublist_cons_self e es
      · simpa [odErase, he] using ih.cons₂ e

theorem length_odErase_of_mem {l : List (K × V)} {k : K}
    (h : k ∈ odKeys l) : (odErase l k).length + 1 = l.length := by
  induction l with
  | nil => simp [odKeys] at h
  | cons e es ih =>
      by_cases he : e.1 = k
      · simp [odErase, he]
      · simp only [odKeys_cons, List.mem_cons] at h
        rcases h with h | h
        · exact absurd h.symm he
        · simp only [odErase, he, if_false, List.length_cons]
          have := ih h
          omega

theorem odLookup_odErase_ne {l : List (K × V)} {k k' : K} (h : k' ≠ k) :
    odLookup (odErase l k) k' = odLookup l k' := by
  induction l with
  | nil => rfl
  | cons e es ih =>
      by_cases he : e.1 = k
      · simp [odErase, odLookup, he, Ne.symm h]
      · by_cases he' : e.1 = k'
        · simp [odErase, odLookup, he, he', h]
        · simp [odErase, odLookup, he, he', h, ih]

theorem odErase_append_singleton {l : List (K × V)} {k : K} (v : V)
    (h : k ∉ odKeys l) : odErase (l ++ [(k, v)]) k = l := by
  induction l with
  | nil => simp [odErase]
  | cons e es ih =>
      simp only [odKeys_cons, List.mem_cons, not_or] at h
      simp [odErase, Ne.symm h.1, ih h.2]

theorem odLookup_append_of_none {l l' : List (K × V)} {k : K}
    (h : odLookup l k = none) : odLookup (l ++ l') k = odLookup l' k := by
  induction l with
  | nil => rfl
  | cons e es ih =>
      by_cases he : e.1 = k
      · simp [odLookup, he] at h
      · simp only [odLookup, he, if_false] at h ⊢
        simp [ih h]

theorem odLookup_append_of_some {l l' : List (K × V)} {k : K} {v : V}
    (h : odLookup l k = some v) : odLookup (l ++ l') k = some v := by
  induction l with
  | nil => simp [odLookup] at h
  | cons e es ih =>
      by_cases he : e.1 = k
      · simp only [odLookup, he, if_true] at h ⊢
        exact h
      · simp only [odLookup, he, if_false] at h ⊢
        exact ih h

end OrderedDictLemmas

/-! ### moveToEnd, NodupKeys and filter lemmas -/

section MoveNodupLemmas

variable {K V : Type} [DecidableEq K]

theorem moveToEnd_of_none {l : List (K × V)} {k : K}
    (h : odLookup l k = none) : moveToEnd l k = l := by
  unfold moveToEnd
  rw [h]

theorem moveToEnd_of_some {l : List (K × V)} {k : K} {v : V}
    (h : odLookup l k = some v) : moveToEnd l k = odErase l k ++ [(k, v)] := by
  unfold moveToEnd
  rw [h]

theorem length_moveToEnd (l : List (K × V)) (k : K) :
    (moveToEnd l k).length = l.length := by
  cases h : odLookup l k with
  | none => rw [moveToEnd_of_none h]
  | some v =>
      rw [moveToEnd_of_some h]
      have := length_odErase_of_mem (mem_odKeys_of_lookup_some h)
      simp only [List.length_append, List.length_singleton]
      omega

theorem NodupKeys_of_sublist {l l' : List (K × V)}
    (h : l'.Sublist l) (hn : NodupKeys l) : NodupKeys l' :=
  List.Nodup.sublist (List.Sublist.map Prod.fst h) hn

theorem NodupKeys_tail {l : List (K × V)} (hn : NodupKeys l) :
    NodupKeys l.tail :=
  NodupKeys_of_sublist (List.tail_sublist l) hn

theorem NodupKeys_filter {l : List (K × V)} (p : K × V → Bool)
    (hn : NodupKeys l) : NodupKeys (l.filter p) :=
  NodupKeys_of_sublist (List.filter_sublist l) hn

theorem NodupKeys_odErase {l : List (K × V)} (k : K) (hn : NodupKeys l) :
    NodupKeys (odErase l k) :=
  NodupKeys_of_sublist (odErase_sublist l k) hn

theorem not_mem_odKeys_odErase {l : List (K × V)} {k : K}
    (hn : NodupKeys l) : k ∉ odKeys (odErase l k) := by
  induction l with
  | nil => simp [odErase, odKeys]
  | cons e es ih =>
      simp only [NodupKeys, odKeys_cons, List.nodup_cons] at hn
      by_cases he : e.1 = k
      · simp only [odErase, he, if_true]
        exact he ▸ hn.1
      · simp only [odErase, he, if_false, odKeys_cons, List.mem_cons]
        push_neg
        exact ⟨fun hk => he hk.symm, ih hn.2⟩

theorem nodup_append_singleton {α : Type} {xs : List α} {a : α}
    (h1 : xs.Nodup) (h2 : a ∉ xs) : (xs ++ [a]).Nodup := by
  rw [List.nodup_append_comm]
  exact List.nodup_cons.mpr ⟨h2, h1⟩

theorem NodupKeys_odAssign {l : List (K × V)} (k : K) (v : V)
    (hn : NodupKeys l) : NodupKeys (odAssign l k v) := by
  by_cases h : k ∈ odKeys l
  · unfold NodupKeys
    rw [odKeys_odAssign_of_mem v h]
    exact hn
  · unfold NodupKeys
    rw [odAssign_of_not_mem v h, odKeys_append]
    exact nodup_append_singleton hn h

theorem NodupKeys_moveToEnd {l : List (K × V)} (k : K)
    (hn : NodupKeys l) : NodupKeys (moveToEnd l k) := by
  cases h : odLookup l k with
  | none => rw [moveToEnd_of_none h]; exact hn
  | some v =>
      rw [moveToEnd_of_some h]
      unfold NodupKeys
      rw [odKeys_append]
      exact nodup_append_singleton (NodupKeys_odErase k hn)
        (not_mem_odKeys_odErase hn)

theorem odLookup_moveToEnd_self {l : List (K × V)} {k : K}
    (hn : NodupKeys l) : odLookup (moveToEnd l k) k = odLookup l k := by
  cases h : odLookup l k with
  | none => rw [moveToEnd_of_none h]; exact h
  | some v =>
      rw [moveToEnd_of_some h,
        odLookup_append_of_none
          (odLookup_eq_none_of_not_mem (not_mem_odKeys_odErase hn))]
      simp [odLookup]

theorem odLookup_filter_of_some {l : List (K × V)} {k : K} {v : V}
    {p : K × V → Bool} (h : odLookup l k = some v) (hp : p (k, v) = true) :
    odLookup (l.filter p) k = some v := by
  induction l with
  | nil => simp [odLookup] at h
  | cons e es ih =>
      by_cases he : e.1 = k
      · rw [odLookup, if_pos he] at h
        injection h with h2
        have he2 : e = (k, v) := Prod.ext he h2
        subst he2
        rw [List.filter_cons_of_pos hp]
        simp [odLookup]
      · rw [odLookup, if_neg he] at h
        cases hpe : p e with
        | true =>
            rw [List.filter_cons_of_pos hpe, odLookup, if_neg he]
            exact ih h
        | false =>
            rw [List.filter_cons_of_neg (by simp [hpe])]
            exact ih h

theorem odKeys_filter_subset (l : List (K × V)) (p : K × V → Bool) :
    odKeys (l.filter p) ⊆ odKeys l :=
  (List.Sublist.map Prod.fst (List.filter_sublist l)).subset

theorem odLookup_filter_of_none {l : List (K × V)} {k : K}
    {p : K × V → Bool} (h : odLookup l k = none) :
    odLookup (l.filter p) k = none := by
  apply odLookup_eq_none_of_not_mem
  intro hmem
  have hk : (odLookup l k).isSome :=
    (odLookup_isSome_iff l k).mpr (odKeys_filter_subset l p hmem)
  rw [h] at hk
  simp at hk

end MoveNodupLemmas

/-! ### ResponseCache lemmas -/

section CacheLemmas

variable {K V : Type} [DecidableEq K]

theorem get_of_some {c : ResponseCache K V} {k : K} {td : Int × V}
    (h : odLookup c.cache k = some td) :
    c.get k = (some td.2, { c with cache := moveToEnd c.cache k }) := by
  unfold ResponseCache.get
  rw [h]

theorem get_of_none {c : ResponseCache K V} {k : K}
    (h : odLookup c.cache k = none) : c.get k = (none, c) := by
  unfold ResponseCache.get
  rw [h]

@[simp] theorem get_snd_max_size (c : ResponseCache K V) (k : K) :
    ((c.get k).2).max_size = c.max_size := by
  cases h : odLookup c.cache k with
  | none => rw [get_of_none h]
  | some td => rw [get_of_some h]

@[simp] theorem get_snd_expiry (c : ResponseCache K V) (k : K) :
    ((c.get k).2).expiry_seconds = c.expiry_seconds := by
  cases h : odLookup c.cache k with
  | none => rw [get_of_none h]
  | some td => rw [get_of_some h]

theorem get_snd_length (c : ResponseCache K V) (k : K) :
    ((c.get k).2).cache.length = c.cache.length := by
  cases h : odLookup c.cache k with
  | none => rw [get_of_none h]
  | some td =>
      rw [get_of_some h]
      exact length_moveToEnd c.cache k

theorem NodupKeys_get (c : ResponseCache K V) (k : K)
    (hn : NodupKeys c.cache) : NodupKeys ((c.get k).2).cache := by
  cases h : odLookup c.cache k with
  | none => rw [get_of_none h]; exact hn
  | some td =>
      rw [get_of_some h]
      exact NodupKeys_moveToEnd k hn

theorem set_cache_eq (c : ResponseCache K V) (k : K) (now : Int) (v : V) :
    (c.set k now v).cache = moveToEnd (odAssign (trimmedCache c) k (now, v)) k :=
  rfl

@[simp] theorem set_max_size (c : ResponseCache K V) (k : K) (now : Int) (v : V) :
    (c.set k now v).max_size = c.max_size := rfl

@[simp] theorem set_expiry (c : ResponseCache K V) (k : K) (now : Int) (v : V) :
    (c.set k now v).expiry_seconds = c.expiry_seconds := rfl

theorem NodupKeys_trimmedCache (c : ResponseCache K V)
    (hn : NodupKeys c.cache) : NodupKeys (trimmedCache c) := by
  unfold trimmedCache
  split
  · exact NodupKeys_tail hn
  · exact hn

theorem NodupKeys_set (c : ResponseCache K V) (k : K) (now : Int) (v : V)
    (hn : NodupKeys c.cache) : NodupKeys (c.set k now v).cache := by
  rw [set_cache_eq]
  exact NodupKeys_moveToEnd k (NodupKeys_odAssign k (now, v)
    (NodupKeys_trimmedCache c hn))

theorem set_lookup_self (c : ResponseCache K V) (k : K) (now : Int) (v : V)
    (hn : NodupKeys c.cache) :
    odLookup (c.set k now v).cache k = some (now, v) := by
  rw [set_cache_eq,
    odLookup_moveToEnd_self (NodupKeys_odAssign k (now, v)
      (NodupKeys_trimmedCache c hn))]
  exact odLookup_odAssign_self _ k (now, v)

theorem set_length_le (c : ResponseCache K V) (k : K) (now : Int) (v : V)
    (hm : 1 ≤ c.max_size) (hl : c.cache.length ≤ c.max_size) :
    (c.set k now v).cache.length ≤ c.max_size := by
  rw [set_cache_eq, length_moveToEnd]
  have h1 := length_odAssign_le (trimmedCache c) k (now, v)
  unfold trimmedCache at h1 ⊢
  by_cases h : c.max_size ≤ c.cache.length
  · rw [if_pos h] at h1 ⊢
    have h2 : c.cache.tail.length = c.cache.length - 1 := List.length_tail _
    omega
  · rw [if_neg h] at h1 ⊢
    omega

theorem set_cache_fresh (c : ResponseCache K V) (k : K) (now : Int) (v : V)
    (h : k ∉ odKeys c.cache) :
    (c.set k now v).cache = trimmedCache c ++ [(k, (now, v))] := by
  have htr : k ∉ odKeys (trimmedCache c) := by
    intro hk
    apply h
    unfold trimmedCache at hk
    split at hk
    · exact (List.Sublist.map Prod.fst (List.tail_sublist c.cache)).subset hk
    · exact hk
  rw [set_cache_eq, odAssign_of_not_mem (now, v) htr]
  have hl : odLookup (trimmedCache c ++ [(k, (now, v))]) k = some (now, v) := by
    rw [odLookup_append_of_none (odLookup_eq_none_of_not_mem htr)]
    simp [odLookup]
  rw [moveToEnd_of_some hl, odErase_append_singleton (now, v) htr]

theorem clear_expired_cache_eq (c : ResponseCache K V) (now : Int) :
    (c.clear_expired now).cache =
      c.cache.filter (fun e => decide (now - e.2.1 < c.expiry_seconds)) := rfl

@[simp] theorem clear_expired_max_size (c : ResponseCache K V) (now : Int) :
    (c.clear_expired now).max_size = c.max_size := rfl

@[simp] theorem clear_expired_expiry (c : ResponseCache K V) (now : Int) :
    (c.clear_expired now).expiry_seconds = c.expiry_seconds := rfl

theorem NodupKeys_clear_expired (c : ResponseCache K V) (now : Int)
    (hn : NodupKeys c.cache) : NodupKeys (c.clear_expired now).cache :=
  NodupKeys_filter _ hn

theorem clear_expired_length_le (c : ResponseCache K V) (now : Int) :
    (c.clear_expired now).cache.length ≤ c.cache.length :=
  List.length_filter_le _ _

/-- Membership after a sweep: exactly the entries younger than the TTL
survive. -/
theorem mem_clear_expired_iff (c : ResponseCache K V) (now : Int)
    (e : K × (Int × V)) :
    e ∈ (c.clear_expired now).cache ↔
      e ∈ c.cache ∧ now - e.2.1 < c.expiry_seconds := by
  rw [clear_expired_cache_eq, List.mem_filter]
  simp

theorem clear_expired_lookup_of_fresh {c : ResponseCache K V} {k : K}
    {t : Int} {v : V} {now : Int} (h : odLookup c.cache k = some (t, v))
    (ht : now - t < c.expiry_seconds) :
    odLookup (c.clear_expired now).cache k = some (t, v) := by
  rw [clear_expired_cache_eq]
  exact odLookup_filter_of_some h (by simpa using ht)

end CacheLemmas

/-! ### Operation-sequence lemmas -/

section OpsLemmas

variable {K V : Type} [DecidableEq K]

theorem applyOp_max_size (c : ResponseCache K V) (op : CacheOp K V) :
    (applyOp c op).max_size = c.max_size := by
  cases op with
  | get k => exact get_snd_max_size c k
  | set k now v => rfl
  | clearExpired now => rfl

theorem applyOp_length_le (c : ResponseCache K V) (op : CacheOp K V)
    (hm : 1 ≤ c.max_size) (h : c.cache.length ≤ c.max_size) :
    (applyOp c op).cache.length ≤ c.max_size := by
  cases op with
  | get k =>
      show ((c.get k).2).cache.length ≤ c.max_size
      rw [get_snd_length]
      exact h
  | set k now v => exact set_length_le c k now v hm h
  | clearExpired now => exact le_trans (clear_expired_length_le c now) h

theorem applyOps_length_le (ops : List (CacheOp K V)) :
    ∀ c : ResponseCache K V, 1 ≤ c.max_size → c.cache.length ≤ c.max_size →
      (applyOps c ops).cache.length ≤ c.max_size := by
  induction ops with
  | nil => intro c _ h; exact h
  | cons op ops ih =>
      intro c hm h
      have hmax := applyOp_max_size c op
      have h2 := ih (applyOp c op) (by rw [hmax]; exact hm)
        (by rw [hmax]; exact applyOp_length_le c op hm h)
      show (applyOps (applyOp c op) ops).cache.length ≤ c.max_size
      rw [← hmax]
      exact h2

theorem applyOps_setOps_fresh_length (kvs : List (K × Int × V)) :
    ∀ c : ResponseCache K V, 1 ≤ c.max_size → c.cache.length ≤ c.max_size →
      (kvs.map Prod.fst).Nodup →
      (∀ k ∈ kvs.map Prod.fst, k ∉ odKeys c.cache) →
      (applyOps c (setOps kvs)).cache.length =
        min (c.cache.length + kvs.length) c.max_size := by
  induction kvs with
  | nil =>
      intro c _ hl _ _
      simp only [setOps, List.map_nil, applyOps, List.foldl_nil,
        List.length_nil]
      omega
  | cons x kvs ih =>
      intro c hm hl hnd hfresh
      have hfx : x.1 ∉ odKeys c.cache := by
        apply hfresh
        simp
      have hcache : (c.set x.1 x.2.1 x.2.2).cache =
          trimmedCache c ++ [(x.1, (x.2.1, x.2.2))] :=
        set_cache_fresh c x.1 x.2.1 x.2.2 hfx
      have htlen : (trimmedCache c).length =
          if c.max_size ≤ c.cache.length then c.cache.length - 1
          else c.cache.length := by
        unfold trimmedCache
        split
        · exact List.length_tail _
        · rfl
      have hlen : (c.set x.1 x.2.1 x.2.2).cache.length =
          min (c.cache.length + 1) c.max_size := by
        rw [hcache, List.length_append, List.length_singleton, htlen]
        split <;> omega
      have hkeys : ∀ k, k ∈ odKeys (c.set x.1 x.2.1 x.2.2).cache →
          k = x.1 ∨ k ∈ odKeys c.cache := by
        intro k hk
        rw [hcache, odKeys_append] at hk
        rcases List.mem_append.mp hk with hk | hk
        · right
          unfold trimmedCache at hk
          split at hk
          · exact (List.Sublist.map Prod.fst (List.tail_sublist c.cache)).subset hk
          · exact hk
        · left
          simpa [odKeys] using hk
      simp only [List.map_cons, List.nodup_cons] at hnd
      have h2 := ih (c.set x.1 x.2.1 x.2.2) (by simpa using hm)
        (by rw [hlen, set_max_size]; omega)
        hnd.2
        (by
          intro k hk hmem
          rcases hkeys k hmem with h | h
          · exact hnd.1 (h ▸ hk)
          · exact hfresh k (List.mem_cons_of_mem _ hk) h)
      show (applyOps (applyOp c (CacheOp.set x.1 x.2.1 x.2.2)) (setOps kvs)).cache.length =
        min (c.cache.length + (kvs.length + 1)) c.max_size
      have h3 : applyOp c (CacheOp.set x.1 x.2.1 x.2.2) = c.set x.1 x.2.1 x.2.2 := rfl
      rw [h3]
      rw [h2, hlen, set_max_size]
      omega

end OpsLemmas

/-! ### Dispatcher lemmas -/

section DispatcherLemmas

variable {K V : Type} [DecidableEq K]

@[simp] theorem cleanup_cache_max_size (st : CacheManagerState K V) (now : Int) :
    (cleanup_if_needed st now).cache.max_size = st.cache.max_size := by
  unfold cleanup_if_needed
  split <;> rfl

@[simp] theorem cleanup_cache_expiry (st : CacheManagerState K V) (now : Int) :
    (cleanup_if_needed st now).cache.expiry_seconds = st.cache.expiry_seconds := by
  unfold cleanup_if_needed
  split <;> rfl

theorem NodupKeys_cleanup (st : CacheManagerState K V) (now : Int)
    (hn : NodupKeys st.cache.cache) :
    NodupKeys (cleanup_if_needed st now).cache.cache := by
  unfold cleanup_if_needed
  split
  · exact NodupKeys_clear_expired _ _ hn
  · exact hn

theorem cleanup_lookup_of_fresh {st : CacheManagerState K V} {k : K}
    {t : Int} {v : V} {now : Int}
    (h : odLookup st.cache.cache k = some (t, v))
    (ht : now - t < st.cache.expiry_seconds) :
    odLookup (cleanup_if_needed st now).cache.cache k = some (t, v) := by
  unfold cleanup_if_needed
  split
  · exact clear_expired_lookup_of_fresh h ht
  · exact h

theorem mem_of_mem_cleanup {st : CacheManagerState K V} {now : Int}
    {e : K × (Int × V)} (h : e ∈ (cleanup_if_needed st now).cache.cache) :
    e ∈ st.cache.cache := by
  unfold cleanup_if_needed at h
  split at h
  · exact ((mem_clear_expired_iff st.cache now e).mp h).1
  · exact h

theorem get_fst_some_inv {c : ResponseCache K V} {k : K} {d : V}
    (h : (c.get k).1 = some d) : ∃ t, odLookup c.cache k = some (t, d) := by
  cases hl : odLookup c.cache k with
  | none =>
      rw [get_of_none hl] at h
      simp at h
  | some td =>
      rw [get_of_some hl] at h
      cases td with
      | mk t w =>
          have h2 : w = d := by
            have h3 : some w = some d := h
            injection h3
          subst h2
          exact ⟨t, rfl⟩

/-- The probe the dispatcher's hit test looks at: the `get` on the cache
after the lazy cleanup. -/
theorem make_imdb_request_hit {env : UpstreamEnv}
    {st : CacheManagerState String Json} {now : Int} {url qs : String} {d : Json}
    (h : (((cleanup_if_needed st now).cache.get (cache_key url qs))).1 = some d)
    (ht : d.truthy = true) :
    make_imdb_request env st now url qs =
      ⟨.ok d,
       { cleanup_if_needed st now with
         cache := ((cleanup_if_needed st now).cache.get (cache_key url qs)).2 },
       0, 0⟩ := by
  simp [make_imdb_request, h, ht]

theorem make_imdb_request_miss_none {env : UpstreamEnv}
    {st : CacheManagerState String Json} {now : Int} {url qs : String}
    (h : (((cleanup_if_needed st now).cache.get (cache_key url qs))).1 = none) :
    make_imdb_request env st now url qs =
      fetch_and_store env
        { cleanup_if_needed st now with
          cache := ((cleanup_if_needed st now).cache.get (cache_key url qs)).2 }
        now url qs := by
  simp only [make_imdb_request, h]

theorem make_imdb_request_miss_falsy {env : UpstreamEnv}
    {st : CacheManagerState String Json} {now : Int} {url qs : String} {d : Json}
    (h : (((cleanup_if_needed st now).cache.get (cache_key url qs))).1 = some d)
    (ht : d.truthy = false) :
    make_imdb_request env st now url qs =
      fetch_and_store env
        { cleanup_if_needed st now with
          cache := ((cleanup_if_needed st now).cache.get (cache_key url qs)).2 }
        now url qs := by
  simp only [make_imdb_request, h, ht]
  rfl

/-- Branch facts of the miss tail: at most one store, a store exactly when
the upstream call happened and the result is a success, and never a store
on an error or when no upstream call was made. -/
theorem fetch_and_store_effects (env : UpstreamEnv)
    (st2 : CacheManagerState String Json) (now : Int) (url qs : String) :
    ((fetch_and_store env st2 now url qs).cache_sets = 1 ↔
        (fetch_and_store env st2 now url qs).upstream_calls = 1 ∧
          ∃ v, (fetch_and_store env st2 now url qs).result = .ok v) ∧
      (fetch_and_store env st2 now url qs).cache_sets ≤ 1 ∧
      (∀ e, (fetch_and_store env st2 now url qs).result = .error e →
        (fetch_and_store env st2 now url qs).cache_sets = 0) ∧
      ((fetch_and_store env st2 now url qs).upstream_calls = 0 →
        (fetch_and_store env st2 now url qs).cache_sets = 0) := by
  unfold fetch_and_store
  split
  · simp
  · cases env.upstream url qs <;> simp

/-- Inversion of a dispatcher call that stored: the call went through the
miss tail with a present credential, made exactly one upstream call, and
its final state is the post-probe state with the payload `set` under the
key. -/
theorem dispatch_store_inv (env : UpstreamEnv)
    (st : CacheManagerState String Json) (now : Int) (url qs : String) (v : Json)
    (hsets : (make_imdb_request env st now url qs).cache_sets = 1)
    (hres : (make_imdb_request env st now url qs).result = .ok v) :
    (make_imdb_request env st now url qs).upstream_calls = 1 ∧
      api_key_missing env.api_key = false ∧
      (make_imdb_request env st now url qs).state =
        { cleanup_if_needed st now with
          cache :=
            (((cleanup_if_needed st now).cache.get (cache_key url qs)).2).set
              (cache_key url qs) now v } := by
  have fetch_inv : ∀ st2 : CacheManagerState String Json,
      (fetch_and_store env st2 now url qs).cache_sets = 1 →
      (fetch_and_store env st2 now url qs).result = .ok v →
      (fetch_and_store env st2 now url qs).upstream_calls = 1 ∧
        api_key_missing env.api_key = false ∧
        (fetch_and_store env st2 now url qs).state =
          { st2 with cache := st2.cache.set (cache_key url qs) now v } := by
    intro st2 h1 h2
    unfold fetch_and_store at h1 h2 ⊢
    by_cases hkey : api_key_missing env.api_key = true
    · rw [if_pos hkey] at h1
      simp at h1
    · rw [if_neg hkey] at h1 h2 ⊢
      cases hu : env.upstream url qs with
      | error u =>
          rw [hu] at h2
          simp at h2
      | ok data =>
          rw [hu] at h2
          have h3 : data = v := by
            have : Except.ok (ε := DispatchError) data = Except.ok v := h2
            injection this
          subst h3
          exact ⟨rfl, by simpa using hkey, rfl⟩
  cases hp : (((cleanup_if_needed st now).cache.get (cache_key url qs))).1 with
  | none =>
      rw [make_imdb_request_miss_none hp] at hsets hres ⊢
      exact fetch_inv _ hsets hres
  | some d =>
      cases ht : d.truthy with
      | false =>
          rw [make_imdb_request_miss_falsy hp ht] at hsets hres ⊢
          exact fetch_inv _ hsets hres
      | true =>
          rw [make_imdb_request_hit hp ht] at hsets
          simp at hsets

end DispatcherLemmas

/-! ### Eviction and removal lemmas -/

section EvictionLemmas

variable {K V : Type} [DecidableEq K]

theorem odKeys_odAssign_cases {l : List (K × V)} {k k' : K} {v : V}
    (h : k' ∈ odKeys (odAssign l k v)) : k' ∈ odKeys l ∨ k' = k := by
  by_cases hm : k ∈ odKeys l
  · rw [odKeys_odAssign_of_mem v hm] at h
    exact Or.inl h
  · rw [odAssign_of_not_mem v hm, odKeys_append] at h
    rcases List.mem_append.mp h with h | h
    · exact Or.inl h
    · right
      simpa [odKeys] using h

theorem odKeys_moveToEnd_subset {l : List (K × V)} {k k' : K}
    (h : k' ∈ odKeys (moveToEnd l k)) : k' ∈ odKeys l := by
  cases hl : odLookup l k with
  | none =>
      rw [moveToEnd_of_none hl] at h
      exact h
  | some v =>
      rw [moveToEnd_of_some hl, odKeys_append] at h
      rcases List.mem_append.mp h with h | h
      · exact (List.Sublist.map Prod.fst (odErase_sublist l k)).subset h
      · have hk : k' = k := by simpa [odKeys] using h
        exact hk ▸ mem_odKeys_of_lookup_some hl

theorem head_key_not_mem_tail {l : List (K × V)} {e : K × V}
    (hn : NodupKeys l) (hh : l.head? = some e) : e.1 ∉ odKeys l.tail := by
  cases l with
  | nil => simp at hh
  | cons e0 rest =>
      have he : e0 = e := by
        have h3 : some e0 = some e := hh
        injection h3
      subst he
      simp only [NodupKeys, odKeys_cons, List.nodup_cons] at hn
      exact hn.1

theorem odLookup_filter_of_removed {l : List (K × V)} {k : K} {v : V}
    {p : K × V → Bool} (hn : NodupKeys l) (h : odLookup l k = some v)
    (hp : p (k, v) = false) : odLookup (l.filter p) k = none := by
  induction l with
  | nil => simp [odLookup] at h
  | cons e es ih =>
      simp only [NodupKeys, odKeys_cons, List.nodup_cons] at hn
      by_cases he : e.1 = k
      · rw [odLookup, if_pos he] at h
        have he2 : e = (k, v) := by
          injection h with h2
          exact Prod.ext he h2
        subst he2
        rw [List.filter_cons_of_neg (by simp [hp])]
        apply odLookup_eq_none_of_not_mem
        intro hk
        exact hn.1 (odKeys_filter_subset es p hk)
      · rw [odLookup, if_neg he] at h
        cases hpe : p e with
        | true =>
            rw [List.filter_cons_of_pos hpe, odLookup, if_neg he]
            exact ih hn.2 h
        | false =>
            rw [List.filter_cons_of_neg (by simp [hpe])]
            exact ih hn.2 h

/-- A `set` at (or over) capacity evicts the oldest (head) key, provided it
is not the key being written. -/
theorem set_at_capacity_evicts_head {c : ResponseCache K V} {e : K × (Int × V)}
    {k : K} {now : Int} {v : V} (hn : NodupKeys c.cache)
    (hfull : c.max_size ≤ c.cache.length) (hh : c.cache.head? = some e)
    (hne : e.1 ≠ k) : e.1 ∉ odKeys (c.set k now v).cache := by
  intro hmem
  rw [set_cache_eq] at hmem
  have h1 := odKeys_moveToEnd_subset hmem
  rcases odKeys_odAssign_cases h1 with h2 | h2
  · unfold trimmedCache at h2
    rw [if_pos hfull] at h2
    exact head_key_not_mem_tail hn hh h2
  · exact hne h2

end EvictionLemmas

/-! ## The claims -/

/-- C10: a `get` on a key not present in the store returns `None` and
returns the store completely unchanged — no entry added, removed or
reordered, no timestamp or value altered. -/
theorem get_absent_returns_none_and_frames {K V : Type} [DecidableEq K]
    (c : ResponseCache K V) (k : K) (h : k ∉ odKeys c.cache) :
    c.get k = (none, c) :=
  get_of_none (odLookup_eq_none_of_not_mem h)

/-- Witness for C10 at a concrete store: key 2 is absent from the
one-entry store, so `get 2` returns `None` and the store itself. -/
theorem get_absent_returns_none_and_frames_witness :
    (ResponseCache.mk [(1, ((0 : Int), 5))] 100 600 : ResponseCache Nat Nat).get 2 =
      (none, ResponseCache.mk [(1, ((0 : Int), 5))] 100 600) :=
  get_absent_returns_none_and_frames
    (ResponseCache.mk [(1, ((0 : Int), 5))] 100 600) 2 (by decide)

/-- C2: a hitting `get` moves the accessed entry to the most-recently-used
tail (keeping every other entry in order, as `odErase` does); a `set` at
capacity evicts the current least-recently-used (head) entry; and in the
concrete run `set a; set b; get a; set c` on a store with `maxSize = 2`
(a = 0, b = 1, c = 2), key b is absent while a and c are present — the
final key order is `[a, c]`. -/
theorem lru_get_promotes_and_full_set_evicts :
    (∀ (c : ResponseCache Nat Nat) (k : Nat) (t : Int) (v : Nat),
      odLookup c.cache k = some (t, v) →
      c.get k = (some v, { c with cache := odErase c.cache k ++ [(k, (t, v))] })) ∧
    (∀ (c : ResponseCache Nat Nat) (e : Nat × Int × Nat) (k : Nat) (now : Int)
        (v : Nat),
      NodupKeys c.cache → c.max_size ≤ c.cache.length →
      c.cache.head? = some e → e.1 ≠ k →
      e.1 ∉ odKeys (c.set k now v).cache) ∧
    odKeys (applyOps (ResponseCache.init Nat Nat 2 600)
      [.set 0 100 10, .set 1 101 11, .get 0, .set 2 102 12]).cache = [0, 2] := by
  refine ⟨?_, ?_, by decide⟩
  · intro c k t v h
    rw [get_of_some h, moveToEnd_of_some h]
  · intro c e k now v hn hfull hh hne
    exact set_at_capacity_evicts_head hn hfull hh hne

/-- C1 counterexample: with `maxSize = 2`, the sequence of N = 3 `set`
calls that all use the same key 0 (N > maxSize) leaves the store with 1
entry, not with maxSize = 2 — the claim's "final store size equals
maxSize" fails for sequences that repeat keys. -/
theorem cache_size_claim_counterexample :
    (applyOps (ResponseCache.init Nat Nat 2 600)
        (setOps [(0, 0, 10), (0, 1, 11), (0, 2, 12)])).cache.length = 1 ∧
      (applyOps (ResponseCache.init Nat Nat 2 600)
        (setOps [(0, 0, 10), (0, 1, 11), (0, 2, 12)])).cache.length ≠ 2 := by
  refine ⟨by decide, by decide⟩

/-- C1 (amended): starting from the empty store, the size is at most
`maxSize` after every sequence of operations (for any `maxSize ≥ 1`, so in
particular for the default 100); and a sequence of N `set` calls with
pairwise-distinct keys and N > maxSize leaves exactly maxSize entries. -/
theorem cache_size_bounded :
    (∀ (m : Nat) (ttl : Int) (ops : List (CacheOp Nat Nat)), 1 ≤ m →
      (applyOps (ResponseCache.init Nat Nat m ttl) ops).cache.length ≤ m) ∧
    (∀ (m : Nat) (ttl : Int) (kvs : List (Nat × Int × Nat)), 1 ≤ m →
      (kvs.map Prod.fst).Nodup → m < kvs.length →
      (applyOps (ResponseCache.init Nat Nat m ttl) (setOps kvs)).cache.length = m) := by
  constructor
  · intro m ttl ops hm
    exact applyOps_length_le ops (ResponseCache.init Nat Nat m ttl) hm (Nat.zero_le m)
  · intro m ttl kvs hm hnd hlen
    have h := applyOps_setOps_fresh_length kvs (ResponseCache.init Nat Nat m ttl)
      hm (Nat.zero_le m) hnd
      (by
        intro k _ hk
        exact absurd hk (List.not_mem_nil k))
    rw [h]
    show min (0 + kvs.length) m = m
    omega

/-- C4: for every input list and every integer start, with `s` the clamp of
start into `[0, max(totalCount-1, 0)]` and `e = min(s + 5, totalCount)`
(fixed page size 5, totalCount defaulting to the input length), the
paginator returns the slice `items[s:e]`, `count = e - s`,
`hasMore = (e < totalCount)` and `nextStart = e` when hasMore else `None`;
and the concrete vectors: `[0..23]` at start 0 and at start 20, the empty
input at start 5, and the clamps of start -3 (behaves as 0) and start 999
on 10 items (behaves as 9). -/
theorem paginate_contract (items : List Nat) (start : Int) (s e : Int)
    (hs : s = max 0 (min (if 0 < items.length then (items.length : Int) - 1 else 0) start))
    (he : e = min (s + 5) (items.length : Int)) :
    ((0 ≤ s ∧ s ≤ max ((items.length : Int) - 1) 0) ∧
      paginated_response items start none =
        { items := (items.take e.toNat).drop s.toNat
          start := s
          count := e - s
          totalCount := items.length
          hasMore := decide (e < (items.length : Int))
          nextStart := if e < (items.length : Int) then some e else none }) ∧
    paginated_response (List.range 24) 0 none =
      ⟨[0, 1, 2, 3, 4], 0, 5, 24, true, some 5⟩ ∧
    paginated_response (List.range 24) 20 none =
      ⟨[20, 21, 22, 23], 20, 4, 24, false, none⟩ ∧
    paginated_response ([] : List Nat) 5 none = ⟨[], 0, 0, 0, false, none⟩ ∧
    paginated_response (List.range 10) (-3) none =
      paginated_response (List.range 10) 0 none ∧
    paginated_response (List.range 10) 999 none =
      paginated_response (List.range 10) 9 none ∧
    (paginated_response (List.range 10) 999 none).start = 9 := by
  subst hs
  subst he
  refine ⟨⟨⟨le_max_left 0 _, ?_⟩, rfl⟩,
    by decide, by decide, by decide, by decide, by decide, by decide⟩
  by_cases h : 0 < items.length
  · rw [if_pos h]
    omega
  · rw [if_neg h]
    omega

/-- Witness for C4 at items = [0..23], start = 0 (so s = 0, e = 5): the
clamp bounds hold there. -/
theorem paginate_contract_witness :
    0 ≤ (0 : Int) ∧ (0 : Int) ≤ max (((List.range 24).length : Int) - 1) 0 :=
  (paginate_contract (List.range 24) 0 0 5 (by decide) (by decide)).1.1

/-- C8: the paginator is deterministic — it is embedded as a pure total
function of (items, start, totalCount), exactly as the source computes it
(no I/O primitives, no writes to the input list appear in
`paginated_response`), so runs on equal inputs yield equal `PageResult`s
and the input list, being a value the function only reads via
`take`/`drop`, is left unmodified. -/
theorem paginate_deterministic (items1 items2 : List Nat) (s1 s2 : Int)
    (t1 t2 : Option Nat) (hi : items1 = items2) (hs : s1 = s2) (ht : t1 = t2) :
    paginated_response items1 s1 t1 = paginated_response items2 s2 t2 := by
  rw [hi, hs, ht]

/-- Witness for C8: two runs on [0, 1, 2], start 0 agree. -/
theorem paginate_deterministic_witness :
    paginated_response (List.range 3) 0 none =
      paginated_response (List.range 3) 0 none :=
  paginate_deterministic (List.range 3) (List.range 3) 0 0 none none rfl rfl rfl

/-- C5: with `expirySeconds = 600`, an entry inserted at `t0` is returned
by `get` (and still survives a sweep at `t0 + 599`); after `clear_expired`
runs at `t0 + 601` the entry is absent; and in general a sweep keeps
exactly the entries whose age `now - timestamp` is less than the TTL,
i.e. removes exactly those with age ≥ ttl. -/
theorem ttl_expiry (c : ResponseCache String Nat) (k : String) (v : Nat)
    (t0 : Int) (hexp : c.expiry_seconds = 600) (hnd : NodupKeys c.cache) :
    ((c.set k t0 v).get k).1 = some v ∧
    (((c.set k t0 v).clear_expired (t0 + 599)).get k).1 = some v ∧
    (((c.set k t0 v).clear_expired (t0 + 601)).get k).1 = none ∧
    (∀ (c2 : ResponseCache String Nat) (now : Int) (e : String × Int × Nat),
      e ∈ (c2.clear_expired now).cache ↔
        e ∈ c2.cache ∧ now - e.2.1 < c2.expiry_seconds) := by
  have hl := set_lookup_self c k t0 v hnd
  have hnd2 := NodupKeys_set c k t0 v hnd
  refine ⟨?_, ?_, ?_, ?_⟩
  · rw [get_of_some hl]
  · have hl2 : odLookup ((c.set k t0 v).clear_expired (t0 + 599)).cache k =
        some (t0, v) := by
      apply clear_expired_lookup_of_fresh hl
      rw [set_expiry, hexp]
      show t0 + 599 - t0 < (600 : Int)
      omega
    rw [get_of_some hl2]
  · have hl3 : odLookup ((c.set k t0 v).clear_expired (t0 + 601)).cache k =
        none := by
      rw [clear_expired_cache_eq]
      apply odLookup_filter_of_removed hnd2 hl
      rw [decide_eq_false_iff_not, set_expiry, hexp]
      show ¬(t0 + 601 - t0 < (600 : Int))
      omega
    rw [get_of_none hl3]
  · intro c2 now e
    exact mem_clear_expired_iff c2 now e

/-- Witness for C5 at the default store (expiry 600), key "k", value 42,
t0 = 7. -/
theorem ttl_expiry_witness :
    (((ResponseCache.init String Nat).set "k" 7 42).get "k").1 = some 42 ∧
    ((((ResponseCache.init String Nat).set "k" 7 42).clear_expired (7 + 599)).get "k").1 =
      some 42 ∧
    ((((ResponseCache.init String Nat).set "k" 7 42).clear_expired (7 + 601)).get "k").1 =
      none ∧
    (∀ (c2 : ResponseCache String Nat) (now : Int) (e : String × Int × Nat),
      e ∈ (c2.clear_expired now).cache ↔
        e ∈ c2.cache ∧ now - e.2.1 < c2.expiry_seconds) :=
  ttl_expiry (ResponseCache.init String Nat) "k" 42 7 rfl (by decide)

/-- C7: per dispatcher call, the number of cache-storing mutations
(`cache.set` calls) is at most one; it is one exactly when the call both
performed the upstream fetch and returned a success (a miss that fetched
and parsed successfully); an error outcome (missing credential, transport
error, timeout or non-2xx — the upstream oracle's error case) never
stores; and a call that made no upstream fetch (a truthy cache hit, or a
fail-fast on a missing credential) never stores. The probe's promotion of
a hit entry and the lazy expiry sweep are recency/TTL bookkeeping, not
stores: no entry or value is ever added by a hit or failed call. -/
theorem dispatcher_mutation_discipline (env : UpstreamEnv)
    (st : CacheManagerState String Json) (now : Int) (url qs : String) :
    (make_imdb_request env st now url qs).cache_sets ≤ 1 ∧
    ((make_imdb_request env st now url qs).cache_sets = 1 ↔
      ((make_imdb_request env st now url qs).upstream_calls = 1 ∧
        ∃ v, (make_imdb_request env st now url qs).result = .ok v)) ∧
    (∀ e, (make_imdb_request env st now url qs).result = .error e →
      (make_imdb_request env st now url qs).cache_sets = 0) ∧
    ((make_imdb_request env st now url qs).upstream_calls = 0 →
      (make_imdb_request env st now url qs).cache_sets = 0) := by
  have heff := fetch_and_store_effects env
  cases hp : (((cleanup_if_needed st now).cache.get (cache_key url qs))).1 with
  | none =>
      rw [make_imdb_request_miss_none hp]
      obtain ⟨h1, h2, h3, h4⟩ := heff _ now url qs
      exact ⟨h2, h1, h3, h4⟩
  | some d =>
      cases ht : d.truthy with
      | false =>
          rw [make_imdb_request_miss_falsy hp ht]
          obtain ⟨h1, h2, h3, h4⟩ := heff _ now url qs
          exact ⟨h2, h1, h3, h4⟩
      | true =>
          rw [make_imdb_request_hit hp ht]
          simp

/-- C3 counterexample: the falsy payload `{}` breaks the claim's "for
every possible JSON payload value": the first call succeeds and stores
`{}` (one mutation), yet the second identical call one second later (well
within the 600-second TTL) performs a second upstream call — two upstream
calls across the two invocations, not one. -/
theorem cache_idempotence_counterexample :
    (make_imdb_request envFalsy freshState 0 "u" "q").result = .ok (.obj []) ∧
    (make_imdb_request envFalsy freshState 0 "u" "q").cache_sets = 1 ∧
    (make_imdb_request envFalsy freshState 0 "u" "q").upstream_calls
        + (make_imdb_request envFalsy
            (make_imdb_request envFalsy freshState 0 "u" "q").state
            1 "u" "q").upstream_calls = 2 ∧
    (make_imdb_request envFalsy freshState 0 "u" "q").upstream_calls
        + (make_imdb_request envFalsy
            (make_imdb_request envFalsy freshState 0 "u" "q").state
            1 "u" "q").upstream_calls ≠ 1 :=
  ⟨rfl, rfl, rfl, by decide⟩

/-- C3 (amended): for every (url, params) pair, if a first dispatcher call
succeeds and stores the upstream JSON payload and that payload is truthy,
then a second dispatcher call with the identical url and params within the
TTL window returns the cached value with no second upstream call — exactly
one upstream call across the two invocations. (The counterexample forces
the truthiness proviso: the dispatcher's hit test is `if cached_data:`.) -/
theorem cache_idempotence (env : UpstreamEnv)
    (st : CacheManagerState String Json) (url qs : String) (v : Json)
    (now1 now2 : Int) (hnd : NodupKeys st.cache.cache)
    (hres : (make_imdb_request env st now1 url qs).result = .ok v)
    (hsets : (make_imdb_request env st now1 url qs).cache_sets = 1)
    (htr : v.truthy = true)
    (hwin : now2 - now1 < st.cache.expiry_seconds) :
    (make_imdb_request env st now1 url qs).upstream_calls = 1 ∧
    (make_imdb_request env (make_imdb_request env st now1 url qs).state
      now2 url qs).result = .ok v ∧
    (make_imdb_request env (make_imdb_request env st now1 url qs).state
      now2 url qs).upstream_calls = 0 := by
  obtain ⟨hup, hkey, hstate⟩ := dispatch_store_inv env st now1 url qs v hsets hres
  rw [hstate]
  have hn2 : NodupKeys (((cleanup_if_needed st now1).cache.get (cache_key url qs)).2).cache :=
    NodupKeys_get _ _ (NodupKeys_cleanup st now1 hnd)
  have hlook := set_lookup_self _ (cache_key url qs) now1 v hn2
  have hlook2 : odLookup
      (cleanup_if_needed
        { cleanup_if_needed st now1 with
          cache := (((cleanup_if_needed st now1).cache.get (cache_key url qs)).2).set
            (cache_key url qs) now1 v }
        now2).cache.cache (cache_key url qs) = some (now1, v) := by
    apply cleanup_lookup_of_fresh hlook
    show now2 - now1 <
      ((((cleanup_if_needed st now1).cache.get (cache_key url qs)).2).set
        (cache_key url qs) now1 v).expiry_seconds
    simpa using hwin
  have hp2 : ((cleanup_if_needed
      { cleanup_if_needed st now1 with
        cache := (((cleanup_if_needed st now1).cache.get (cache_key url qs)).2).set
          (cache_key url qs) now1 v }
      now2).cache.get (cache_key url qs)).1 = some v := by
    rw [get_of_some hlook2]
  rw [make_imdb_request_hit hp2 htr]
  exact ⟨hup, rfl, rfl⟩

/-- Witness for C3 at a concrete run: empty default state, an upstream
that returns the truthy payload `"x"`, calls at times 0 and 1. -/
theorem cache_idempotence_witness :
    (make_imdb_request envTruthy freshState 0 "u" "q").upstream_calls = 1 ∧
    (make_imdb_request envTruthy
      (make_imdb_request envTruthy freshState 0 "u" "q").state 1 "u" "q").result =
        .ok (.str "x") ∧
    (make_imdb_request envTruthy
      (make_imdb_request envTruthy freshState 0 "u" "q").state 1 "u" "q").upstream_calls =
        0 :=
  cache_idempotence envTruthy freshState "u" "q" (.str "x") 0 1
    (by decide) rfl rfl rfl (by decide)

/-- C9: when the first call successfully stores a falsy payload (empty
object/list, null, 0, empty string or false — `Json.truthy` is false), a
second identical call within the TTL window treats the lookup as a miss
(the dispatcher tests `if cached_data:` — truthiness, not key presence)
and performs a fresh upstream call. -/
theorem falsy_cached_payload_refetches (env : UpstreamEnv)
    (st : CacheManagerState String Json) (url qs : String) (v : Json)
    (now1 now2 : Int) (hnd : NodupKeys st.cache.cache)
    (hres : (make_imdb_request env st now1 url qs).result = .ok v)
    (hsets : (make_imdb_request env st now1 url qs).cache_sets = 1)
    (hfalsy : v.truthy = false)
    (hwin : now2 - now1 < st.cache.expiry_seconds) :
    (make_imdb_request env (make_imdb_request env st now1 url qs).state
      now2 url qs).upstream_calls = 1 := by
  obtain ⟨hup, hkey, hstate⟩ := dispatch_store_inv env st now1 url qs v hsets hres
  rw [hstate]
  have hn2 : NodupKeys (((cleanup_if_needed st now1).cache.get (cache_key url qs)).2).cache :=
    NodupKeys_get _ _ (NodupKeys_cleanup st now1 hnd)
  have hlook := set_lookup_self _ (cache_key url qs) now1 v hn2
  have hlook2 : odLookup
      (cleanup_if_needed
        { cleanup_if_needed st now1 with
          cache := (((cleanup_if_needed st now1).cache.get (cache_key url qs)).2).set
            (cache_key url qs) now1 v }
        now2).cache.cache (cache_key url qs) = some (now1, v) := by
    apply cleanup_lookup_of_fresh hlook
    show now2 - now1 <
      ((((cleanup_if_needed st now1).cache.get (cache_key url qs)).2).set
        (cache_key url qs) now1 v).expiry_seconds
    simpa using hwin
  have hp2 : ((cleanup_if_needed
      { cleanup_if_needed st now1 with
        cache := (((cleanup_if_needed st now1).cache.get (cache_key url qs)).2).set
          (cache_key url qs) now1 v }
      now2).cache.get (cache_key url qs)).1 = some v := by
    rw [get_of_some hlook2]
  rw [make_imdb_request_miss_falsy hp2 hfalsy]
  unfold fetch_and_store
  rw [hkey]
  simp only [Bool.false_eq_true, if_false]
  cases env.upstream url qs with
  | error u => rfl
  | ok data => rfl

/-- Witness for C9 at a concrete run: the upstream returns the falsy `{}`;
the second call one second later fetches upstream again. -/
theorem falsy_cached_payload_refetches_witness :
    (make_imdb_request envFalsy
      (make_imdb_request envFalsy freshState 0 "u" "q").state 1 "u" "q").upstream_calls =
      1 :=
  falsy_cached_payload_refetches envFalsy freshState "u" "q" (.obj []) 0 1
    (by decide) rfl rfl rfl (by decide)

/-- C6 counterexample: with no resolvable credential but a truthy cached
value under the computed key, the dispatcher call returns the cached value
successfully instead of failing: the claim's "the call fails with a
MissingCredential error" does not hold for cache-hit calls (the credential
is only resolved after the cache probe). -/
theorem missing_credential_counterexample :
    envNoKey.api_key = none ∧
    (make_imdb_request envNoKey hitState 1 "u" "q").result = .ok (.str "x") ∧
    (make_imdb_request envNoKey hitState 1 "u" "q").result ≠
      .error .missingCredential := by
  refine ⟨rfl, rfl, ?_⟩
  intro h
  have h2 : Except.ok (ε := DispatchError) (Json.str "x") =
      Except.error DispatchError.missingCredential := h
  exact Except.noConfusion h2

/-- C6 (amended): for every dispatcher call where no credential is
resolvable and the cache holds no truthy value under the computed key (in
particular whenever the key is absent), the call fails with the
missing-credential error and performs zero upstream calls. (The
counterexample forces the no-truthy-hit proviso: a hit returns before the
credential is resolved.) -/
theorem missing_credential_fails (env : UpstreamEnv)
    (st : CacheManagerState String Json) (now : Int) (url qs : String)
    (hkey : env.api_key = none)
    (hmiss : ∀ (t : Int) (v : Json),
      (cache_key url qs, (t, v)) ∈ st.cache.cache → v.truthy = false) :
    (make_imdb_request env st now url qs).result = .error .missingCredential ∧
    (make_imdb_request env st now url qs).upstream_calls = 0 := by
  have hm : api_key_missing env.api_key = true := by rw [hkey]; rfl
  cases hp : (((cleanup_if_needed st now).cache.get (cache_key url qs))).1 with
  | none =>
      rw [make_imdb_request_miss_none hp]
      unfold fetch_and_store
      rw [hm]
      exact ⟨rfl, rfl⟩
  | some d =>
      obtain ⟨t, hl⟩ := get_fst_some_inv hp
      have hmem := mem_of_mem_cleanup (odLookup_some_mem hl)
      have hfd : d.truthy = false := hmiss t d hmem
      rw [make_imdb_request_miss_falsy hp hfd]
      unfold fetch_and_store
      rw [hm]
      exact ⟨rfl, rfl⟩

/-- Witness for C6 at a concrete call: no credential, empty cache. -/
theorem missing_credential_fails_witness :
    (make_imdb_request envNoKey freshState 0 "u" "q").result =
      .error .missingCredential ∧
    (make_imdb_request envNoKey freshState 0 "u" "q").upstream_calls = 0 :=
  missing_credential_fails envNoKey freshState 0 "u" "q" rfl
    (fun _ _ h => absurd h (List.not_mem_nil _))

end ImdbMcp
